import Mathlib

/-!
# Verification of the `fave` bookmark store

Shallow embedding of `internal/store/store.go`, the server configuration
(`internal/server/config.go`), the snapshot scheduler (`internal/server/server.go`)
and the lifecycle coordinator (`cmd/serve.go`), with proofs of the spec's claims.

Modelling conventions:
* A Go `map[int]Bookmark` is represented canonically as an association list
  `List (Int × Bookmark)` sorted strictly by key; Go map operations are embedded
  as the corresponding list operations.  Go `int` is modelled as `Int`
  (no arithmetic in the program brings the counter near the 64-bit bound).
* Go errors are strings (`errors.New("bookmark not found")`), so fallible
  operations return `Except String _` carrying the exact message.
* `encoding/json` marshalling of the store struct is embedded as a function to a
  JSON value tree (`Json` below), with map keys rendered in decimal as Go does,
  and unmarshalling as its partial inverse, mirroring `json.Decoder.Decode`
  field handling (absent field keeps the zero value, wrong type is an error).
-/

/-- The record type, from `internal/bookmark.go`:
`Url`, `Name`, `Description` strings and `Tags []string`. -/
structure Bookmark where
  url : String
  name : String
  description : String
  tags : List String
deriving DecidableEq, Repr

/-- Go map read `m[id]`: first (only, for canonical lists) binding of `id`. -/
def lookupKey (id : Int) : List (Int × Bookmark) → Option Bookmark
  | [] => none
  | (k, v) :: rest => if k = id then some v else lookupKey id rest

/-- Go map write `m[id] = b`, keeping the canonical (sorted-by-key) form. -/
def insertKey (id : Int) (b : Bookmark) : List (Int × Bookmark) → List (Int × Bookmark)
  | [] => [(id, b)]
  | (k, v) :: rest =>
    if id < k then (id, b) :: (k, v) :: rest
    else if id = k then (id, b) :: rest
    else (k, v) :: insertKey id b rest

/-- Go map deletion `delete(m, id)`. -/
def eraseKey (id : Int) (l : List (Int × Bookmark)) : List (Int × Bookmark) :=
  l.filter (fun kv => kv.1 != id)

/-- The canonical-representation invariant: keys strictly increasing. -/
def Canonical (l : List (Int × Bookmark)) : Prop :=
  List.Pairwise (fun a b => a.1 < b.1) l

instance : DecidablePred Canonical := by
  intro l
  unfold Canonical
  infer_instance

/-- In-memory store state, from `internal/store/store.go`:
the `Bookmarks` map and the `IdxCounter` (file handle and mutex are not state
observed by any claim; the lock serialises operations, which the claims view
as the store's sequential semantics). -/
structure Store where
  bookmarks : List (Int × Bookmark)
  idxCounter : Int
deriving DecidableEq, Repr

/-- Embeds `Get` (store.go 64-74): read the map, `"bookmark not found"` when absent. -/
def Store.Get (s : Store) (id : Int) : Except String Bookmark :=
  match lookupKey id s.bookmarks with
  | none => .error "bookmark not found"
  | some b => .ok b

/-- Embeds `List` (store.go 77-83): returns `maps.Clone(s.Bookmarks)` — the entries of
the map as a fresh map value.  (Aliasing of the entries' tag slices is studied
separately in the Go heap model below.) -/
def Store.ListAll (s : Store) : List (Int × Bookmark) :=
  s.bookmarks

/-- Embeds `Add` (store.go 88-96): increment `IdxCounter`, insert at the new counter,
return the new id together with the new state. -/
def Store.Add (s : Store) (b : Bookmark) : Int × Store :=
  (s.idxCounter + 1,
   { bookmarks := insertKey (s.idxCounter + 1) b s.bookmarks,
     idxCounter := s.idxCounter + 1 })

/-- Embeds `Update` (store.go 101-112): replace the entry at `id`, or fail with
`"bookmark not found"` leaving the state as it was. -/
def Store.Update (s : Store) (id : Int) (b : Bookmark) : Except String Unit × Store :=
  match lookupKey id s.bookmarks with
  | none => (.error "bookmark not found", s)
  | some _ => (.ok (), { bookmarks := insertKey id b s.bookmarks, idxCounter := s.idxCounter })

/-- Embeds `Delete` (store.go 116-127): remove the entry at `id`, or fail with
`"bookmark not found"` leaving the state as it was. -/
def Store.Delete (s : Store) (id : Int) : Except String Unit × Store :=
  match lookupKey id s.bookmarks with
  | none => (.error "bookmark not found", s)
  | some _ => (.ok (), { bookmarks := eraseKey id s.bookmarks, idxCounter := s.idxCounter })

/-- The store a `NewStore` on an absent or empty file produces: empty map,
counter `0` (store.go 36-41). -/
def emptyStore : Store := { bookmarks := [], idxCounter := 0 }

/-- Key-bound invariant of a store state: every key in the collection is at
most the counter.  Combined with the canonical form this is the state
invariant the spec asserts. -/
def StoreInv (s : Store) : Prop :=
  Canonical s.bookmarks ∧ ∀ kv ∈ s.bookmarks, kv.1 ≤ s.idxCounter

-- ## JSON model of `encoding/json` marshalling
/-- JSON value trees: the image of `encoding/json` marshalling (the store's
data needs strings, integers, arrays and objects only). -/
inductive Json where
  | str (s : String)
  | num (n : Int)
  | arr (xs : List Json)
  | obj (fields : List (String × Json))
deriving Repr

/-- Sequence a fallible decoding step over a list, failing if any element
fails (the shape of `json` decoding of arrays and objects). -/
def mapOption (f : α → Option β) : List α → Option (List β)
  | [] => some []
  | a :: as =>
    match f a, mapOption f as with
    | some b, some bs => some (b :: bs)
    | _, _ => none

/-- Decimal digits of `n`, most significant first, as `strconv` renders them. -/
def natDigits (n : Nat) : List Nat :=
  if _h : n < 10 then [n] else natDigits (n / 10) ++ [n % 10]
decreasing_by
  exact Nat.div_lt_self (by omega) (by omega)

/-- Value of a digit list, most significant first. -/
def ofDigits (l : List Nat) : Nat :=
  l.foldl (fun a d => a * 10 + d) 0

/-- Character of one decimal digit. -/
def digitChar (d : Nat) : Char := Char.ofNat (48 + d)

/-- Digit value of a character, when it is a decimal digit. -/
def charDigit (c : Char) : Option Nat :=
  if 48 ≤ c.toNat ∧ c.toNat ≤ 57 then some (c.toNat - 48) else none

/-- Parse a nonempty all-digit character list (most significant first). -/
def parseNatChars (cs : List Char) : Option Nat :=
  match cs with
  | [] => none
  | _ :: _ => (mapOption charDigit cs).map ofDigits

/-- The character list `strconv` renders an integer to (decimal, `-` sign). -/
def intChars (n : Int) : List Char :=
  if n < 0 then '-' :: (natDigits (-n).toNat).map digitChar
  else (natDigits n.toNat).map digitChar

/-- Go renders `map[int]…` keys as decimal strings in the JSON object. -/
def encodeKey (n : Int) : String := String.mk (intChars n)

/-- Parse a decimal integer with optional leading minus (as `json` decoding of
integer map keys does). -/
def parseIntChars (cs : List Char) : Option Int :=
  match cs with
  | [] => none
  | c :: rest =>
    if c = '-' then (parseNatChars rest).map (fun m => -(m : Int))
    else (parseNatChars (c :: rest)).map (fun m => (m : Int))

def parseKey (s : String) : Option Int := parseIntChars s.data

/-- Marshalling of one record, with the struct's json tags
(`url`, `name`, `description`, `tags`). -/
def encodeBookmark (b : Bookmark) : Json :=
  .obj [("url", .str b.url), ("name", .str b.name),
        ("description", .str b.description),
        ("tags", .arr (b.tags.map Json.str))]

/-- Object field access by name (first binding, as `json` decoding sees it). -/
def getField (k : String) : List (String × Json) → Option Json
  | [] => none
  | (k', v) :: rest => if k' = k then some v else getField k rest

/-- Decoding a string-typed struct field: an absent field keeps the zero value
`""`; a present field must be a JSON string. -/
def fieldAsString : Option Json → Option String
  | none => some ""
  | some (.str s) => some s
  | some _ => none

/-- Decoding the `[]string` field: absent keeps the zero value (nil slice);
present must be an array of strings. -/
def fieldAsStringList : Option Json → Option (List String)
  | none => some []
  | some (.arr xs) =>
    mapOption (fun j => match j with | .str s => some s | _ => none) xs
  | some _ => none

/-- Unmarshalling of one record into the `Bookmark` struct. -/
def decodeBookmark : Json → Option Bookmark
  | .obj fields => do
    let url ← fieldAsString (getField "url" fields)
    let name ← fieldAsString (getField "name" fields)
    let description ← fieldAsString (getField "description" fields)
    let tags ← fieldAsStringList (getField "tags" fields)
    pure { url := url, name := name, description := description, tags := tags }
  | _ => none

/-- The `bookmarks` map marshalled as a JSON object: decimal keys, entries in
the map's canonical order. -/
def encodeEntries (l : List (Int × Bookmark)) : List (String × Json) :=
  l.map (fun kv => (encodeKey kv.1, encodeBookmark kv.2))

/-- Decode one object field back into a map entry. -/
def decodeEntry (f : String × Json) : Option (Int × Bookmark) := do
  let k ← parseKey f.1
  let b ← decodeBookmark f.2
  pure (k, b)

/-- Building the Go map from decoded entries: successive map writes. -/
def buildMap (entries : List (Int × Bookmark)) : List (Int × Bookmark) :=
  entries.foldl (fun acc kv => insertKey kv.1 kv.2 acc) []

/-- Unmarshalling of the `bookmarks` field. -/
def decodeEntries (fields : List (String × Json)) : Option (List (Int × Bookmark)) :=
  (mapOption decodeEntry fields).map buildMap

/-- Marshalling of the whole store struct (`json.Marshal(s)` in
`SaveSnapshot`): exported fields with their tags, unexported fields skipped. -/
def encodeStore (s : Store) : Json :=
  .obj [("bookmarks", .obj (encodeEntries s.bookmarks)),
        ("idx_counter", .num s.idxCounter)]

/-- Unmarshalling of the `bookmarks` struct field: an absent field keeps the
initial value (the empty map `NewStore` allocates); a present field must be a
JSON object of entries. -/
def bookmarksField (fields : List (String × Json)) : Option (List (Int × Bookmark)) :=
  match getField "bookmarks" fields with
  | none => some []
  | some (.obj efs) => decodeEntries efs
  | some _ => none

/-- Unmarshalling of the `idx_counter` struct field: an absent field keeps the
initial value `0`; a present field must be a JSON number. -/
def counterField (fields : List (String × Json)) : Option Int :=
  match getField "idx_counter" fields with
  | none => some 0
  | some (.num n) => some n
  | some _ => none

/-- Unmarshalling of the whole store struct into a freshly initialised store
(`decoder.Decode(store)` in `NewStore`): an absent field keeps the initial
value (empty map, counter `0`), a mistyped field is an error. -/
def decodeStore (j : Json) : Option Store :=
  match j with
  | .obj fields =>
    match bookmarksField fields, counterField fields with
    | some bm, some cnt => some { bookmarks := bm, idxCounter := cnt }
    | _, _ => none
  | _ => none

/-- Contents of one file path: `none` is an absent file; `some none` is a
created-but-empty file; `some (some j)` is a file holding the complete
document `j`.  Only whole documents are ever written (one `Write` of the
whole marshalled buffer), so these three shapes are the only contents the
snapshot protocol can leave at a path. -/
abbrev FileContent := Option (Option Json)

/-- Embeds `NewStore` (store.go 29-60), as a function of the backing file's content:
an absent file is created empty; an absent or empty file yields the fresh
empty store with counter `0` (`fileInfo.Size() > 0` guards the decode);
content that decodes populates the store; malformed content fails
construction. -/
def NewStore (file : FileContent) : Except String Store :=
  match file with
  | none => .ok emptyStore
  | some none => .ok emptyStore
  | some (some j) =>
    match decodeStore j with
    | none => .error "malformed snapshot"
    | some s => .ok s

-- ## Filesystem model of the snapshot write protocol
/-- The two paths `SaveSnapshot` touches: the backing file and the temp file. -/
structure FileSys where
  backing : FileContent
  temp : FileContent

/-- Injected outcome of each fallible filesystem step of `SaveSnapshot`
(store.go 133-164): `json.Marshal`, `os.CreateTemp`, `tmpf.Write`,
`tmpf.Close`, `os.Remove`, `os.Rename`. -/
structure FsFail where
  marshalOk : Bool
  createOk : Bool
  writeOk : Bool
  closeOk : Bool
  removeOk : Bool
  renameOk : Bool
deriving DecidableEq, Repr

/-- The run in which every filesystem step succeeds. -/
def allOk : FsFail := ⟨true, true, true, true, true, true⟩

/-- Embeds `SaveSnapshot` (store.go 133-164): marshal while holding the lock, write a
temp file in the target's directory, close it, remove the target if it exists
(unconditionally on every platform — the code has no platform branch), then
rename the temp file over the target.  Each step returns early on failure.
The in-memory store fields are never assigned.  Result: the operation's
error/success, the (unchanged) store, and the resulting filesystem. -/
def Store.SaveSnapshot (s : Store) (fs : FileSys) (f : FsFail) :
    Except String Unit × Store × FileSys :=
  if !f.marshalOk then (.error "marshal failed", s, fs)
  else if !f.createOk then (.error "create temp failed", s, fs)
  else
    let doc := encodeStore s
    let fs1 : FileSys := { fs with temp := some none }
    if !f.writeOk then (.error "write failed", s, fs1)
    else
      let fs2 : FileSys := { fs with temp := some (some doc) }
      if !f.closeOk then (.error "close failed", s, fs2)
      else if fs.backing.isSome then
        if !f.removeOk then (.error "remove failed", s, fs2)
        else
          let fs3 : FileSys := { backing := none, temp := some (some doc) }
          if !f.renameOk then (.error "rename failed", s, fs3)
          else (.ok (), s, { backing := some (some doc), temp := none })
      else
        if !f.renameOk then (.error "rename failed", s, fs2)
        else (.ok (), s, { backing := some (some doc), temp := none })

/-- The successive filesystem states a fully successful `SaveSnapshot` moves
through: initial, after `CreateTemp`, after `Write`, after `Close`, (after
`Remove` when the target existed), after `Rename`. -/
def snapshotStates (s : Store) (fs : FileSys) : List FileSys :=
  let doc := encodeStore s
  let afterCreate : FileSys := { fs with temp := some none }
  let afterWrite : FileSys := { fs with temp := some (some doc) }
  let final : FileSys := { backing := some (some doc), temp := none }
  if fs.backing.isSome then
    [fs, afterCreate, afterWrite, afterWrite,
     { backing := none, temp := some (some doc) }, final]
  else
    [fs, afterCreate, afterWrite, afterWrite, final]

-- ## Reachable states and operation traces
/-- States of a store used as the program uses it: freshly constructed on an
absent/empty backing file, mutated through the store's own operations, and
reloaded across restarts from snapshots the store itself wrote
(`SaveSnapshot` then `NewStore`).  Get/List/SaveSnapshot do not change the
in-memory state. -/
inductive Reachable : Store → Prop
  | init : Reachable emptyStore
  | add (s : Store) (b : Bookmark) : Reachable s → Reachable (s.Add b).2
  | update (s : Store) (id : Int) (b : Bookmark) :
      Reachable s → Reachable (s.Update id b).2
  | delete (s : Store) (id : Int) : Reachable s → Reachable (s.Delete id).2
  | reload (s s' : Store) :
      Reachable s → NewStore (some (some (encodeStore s))) = .ok s' → Reachable s'

/-- States of a store constructed from an arbitrary (possibly hand-written)
backing file and then mutated through the store's operations. -/
inductive Built : Store → Prop
  | loaded (file : FileContent) (s : Store) : NewStore file = .ok s → Built s
  | add (s : Store) (b : Bookmark) : Built s → Built (s.Add b).2
  | update (s : Store) (id : Int) (b : Bookmark) : Built s → Built (s.Update id b).2
  | delete (s : Store) (id : Int) : Built s → Built (s.Delete id).2

-- ## Operation traces
/-- One client-visible store operation. -/
inductive Op where
  | get (id : Int)
  | listAll
  | add (b : Bookmark)
  | update (id : Int) (b : Bookmark)
  | delete (id : Int)
  | snapshot
deriving Repr

/-- The identifier-allocation events a run emits: `added id` for each `Add`
(the value the call returned), `deleted id` for each successful `Delete`. -/
inductive Event where
  | added (id : Int)
  | deleted (id : Int)
deriving DecidableEq, Repr

/-- Apply one operation to the in-memory state (snapshotting and reads leave
it unchanged), emitting its event if any. -/
def applyOp (s : Store) : Op → Store × Option Event
  | .get _ => (s, none)
  | .listAll => (s, none)
  | .add b =>
    let r := s.Add b
    (r.2, some (.added r.1))
  | .update id b => ((s.Update id b).2, none)
  | .delete id =>
    match s.Delete id with
    | (.ok _, s') => (s', some (.deleted id))
    | (.error _, s') => (s', none)
  | .snapshot => (s, none)

/-- Run a sequence of operations, collecting the emitted events in order. -/
def runOps (s : Store) : List Op → Store × List Event
  | [] => (s, [])
  | op :: ops =>
    let r := applyOp s op
    let rest := runOps r.1 ops
    (rest.1, r.2.toList ++ rest.2)

/-- The identifiers returned by the `Add` calls of a run, in order. -/
def addedIds (evs : List Event) : List Int :=
  evs.filterMap (fun e => match e with | .added id => some id | _ => none)

/-- The `n` consecutive integers starting just above `c`. -/
def consecFrom (c : Int) (n : Nat) : List Int :=
  (List.range n).map (fun i => c + 1 + Int.ofNat i)

/-- Number of `add` operations in a sequence. -/
def numAdds (ops : List Op) : Nat :=
  ops.countP (fun op => match op with | .add _ => true | _ => false)

-- ## Go heap model for `List` aliasing (`maps.Clone` is a shallow copy)
/-- A Go `Bookmark` value as it sits in memory: three immutable strings and a
`Tags []string` slice header whose backing array lives in the heap. -/
structure GoBookmark where
  url : String
  name : String
  description : String
  tagsRef : Nat
deriving DecidableEq, Repr

/-- The mutable memory shared between the store and its callers: map cells
(`map[int]Bookmark` values) indexed by `Nat` references, and slice backing
arrays (`[]string`) likewise. -/
structure GoHeap where
  mapCells : List (List (Int × GoBookmark))
  arrays : List (List String)
deriving DecidableEq, Repr

/-- The store as it sits in memory: a reference to its map cell plus the
counter. -/
structure GoStore where
  bookmarksRef : Nat
  idxCounter : Int
deriving DecidableEq, Repr

/-- Dereference one record: the strings are values, the tags come from the
heap through the slice header. -/
def readBookmark (h : GoHeap) (gb : GoBookmark) : Bookmark :=
  { url := gb.url, name := gb.name, description := gb.description,
    tags := h.arrays.getD gb.tagsRef [] }

/-- The record collection a store logically holds: its map cell with every
entry dereferenced. -/
def storeView (h : GoHeap) (s : GoStore) : List (Int × Bookmark) :=
  (h.mapCells.getD s.bookmarksRef []).map (fun kv => (kv.1, readBookmark h kv.2))

/-- The entries reachable from a map reference, dereferenced. -/
def mapView (h : GoHeap) (r : Nat) : List (Int × Bookmark) :=
  (h.mapCells.getD r []).map (fun kv => (kv.1, readBookmark h kv.2))

/-- Embeds `List` (store.go 77-83) at the memory level: `maps.Clone` allocates a
fresh map cell and copies the entries — each `Bookmark` struct is copied by
value, so the copied entries carry the *same* `tagsRef` slice headers.
Returns the new heap and a reference to the clone. -/
def goListAll (h : GoHeap) (s : GoStore) : GoHeap × Nat :=
  ({ h with mapCells := h.mapCells ++ [h.mapCells.getD s.bookmarksRef []] },
   h.mapCells.length)

/-- Overwrite a map cell (the effect on the heap of inserting, updating or
deleting entries of the map it denotes). -/
def setMapCell (h : GoHeap) (r : Nat) (cell : List (Int × GoBookmark)) : GoHeap :=
  { h with mapCells := h.mapCells.set r cell }

/-- Go map write `m[id] = b` on a cell's entry list, keeping the canonical
(sorted-by-key) form, as `insertKey` does for the value-level model. -/
def insertGoKey (id : Int) (b : GoBookmark) :
    List (Int × GoBookmark) → List (Int × GoBookmark)
  | [] => [(id, b)]
  | (k, v) :: rest =>
    if id < k then (id, b) :: (k, v) :: rest
    else if id = k then (id, b) :: rest
    else (k, v) :: insertGoKey id b rest

/-- Embeds `Add` (store.go 88-96) at the memory level: a map write through the
store's own map reference. -/
def goAdd (h : GoHeap) (s : GoStore) (gb : GoBookmark) : GoHeap × GoStore × Int :=
  (setMapCell h s.bookmarksRef
     (insertGoKey (s.idxCounter + 1) gb (h.mapCells.getD s.bookmarksRef [])),
   { s with idxCounter := s.idxCounter + 1 }, s.idxCounter + 1)

/-- Mutation of one element of a tags backing array (`tags[i] = v` on a slice
obtained from a record in a `List` result). -/
def writeTagElem (h : GoHeap) (r : Nat) (i : Nat) (v : String) : GoHeap :=
  { h with arrays := h.arrays.set r ((h.arrays.getD r []).set i v) }

-- ## Server configuration and snapshot scheduler
/-- Server `Config` (internal/server/config.go): the fields `Validate`
inspects plus the snapshot interval. -/
structure Config where
  port : String
  host : String
  storeFileName : String
  authPassword : String
  logLevel : String
  logJSON : Bool
  snapshotInterval : String
deriving DecidableEq, Repr

/-- Embeds `DefaultConfig` (config.go): the documented defaults. -/
def DefaultConfig : Config :=
  { port := "8080", host := "localhost", storeFileName := "./data/bookmarks.json",
    authPassword := "", logLevel := "info", logJSON := false,
    snapshotInterval := "1s" }

/-- Embeds `Config.Validate` (server.go 280-297): rejects an empty port, an empty
store file name and an unknown log level; no other field — in particular not
`SnapshotInterval` — is examined. -/
def Config.Validate (c : Config) : Except String Unit :=
  if c.port = "" then .error "port cannot be empty"
  else if c.storeFileName = "" then .error "store file name cannot be empty"
  else if c.logLevel = "debug" ∨ c.logLevel = "info" ∨ c.logLevel = "warn" ∨
      c.logLevel = "error" then .ok ()
  else .error ("invalid log level: " ++ c.logLevel ++
    " (must be debug, info, warn, or error)")

/-- The server with its snapshot scheduler (server.go 14-19): the store and
the period of the ticker driving `storeSnapshotLoop`, in milliseconds. -/
structure SrvServer where
  store : Store
  tickerMillis : Nat
deriving Repr

/-- Embeds `New` (server.go 21-37): builds the store from the backing file and
starts the snapshot loop on `time.NewTicker(1 * time.Second)` — a fixed
one-second period; the configuration's `SnapshotInterval` is never read. -/
def serverNew (file : FileContent) (_config : Config) : Except String SrvServer :=
  match NewStore file with
  | .error e => .error e
  | .ok st => .ok { store := st, tickerMillis := 1000 }

/-- One wake-up of `storeSnapshotLoop` (server.go 136-146): each tick invokes
`SaveSnapshot`; the loop never changes the in-memory store. -/
def loopTick (sv : SrvServer) (fs : FileSys) (f : FsFail) : SrvServer × FileSys :=
  let r := sv.store.SaveSnapshot fs f
  ({ sv with store := r.2.1 }, r.2.2)

-- ## Lifecycle coordinator (modelled from the spec)
/-- The observable steps of the shutdown sequence. -/
inductive ShutdownStep where
  | stopScheduler
  | forceSnapshot
  | drainConnections
deriving DecidableEq, Repr

/-- Modelled from the spec: the Lifecycle Coordinator and its shutdown path
are absent from the sources — `Server.Close` (server.go 39-41) is a stub that
panics `"NOT IMPLEMENTED"` and does not even match its callers' signature
(`cmd/serve.go` calls `srv.Close()` expecting an error result, the tests call
a three-argument `server.New`), so the coordinator described in spec §4.3 is
embedded here from the spec's words: state for the scheduler, a one-shot
shutdown guard, the count of forced snapshot calls, the listener, and the
ordered log of shutdown steps, together with the store and backing file the
forced snapshot writes. -/
structure Coordinator where
  schedulerRunning : Bool
  shutdownDone : Bool
  forcedSnapshots : Nat
  acceptingConns : Bool
  drainTimeout : Nat
  log : List ShutdownStep
  store : Store
  fs : FileSys

/-- Modelled from the spec: a freshly started coordinator — scheduler
running, accepting connections, no shutdown yet, the spec's example drain
timeout of 30 time units. -/
def startCoordinator (s : Store) (fs : FileSys) : Coordinator :=
  { schedulerRunning := true, shutdownDone := false, forcedSnapshots := 0,
    acceptingConns := true, drainTimeout := 30, log := [], store := s, fs := fs }

/-- Modelled from the spec (§4.3): `triggerShutdown` runs the three-step
sequence — stop the scheduler, force exactly one `snapshot()`, stop accepting
connections and drain up to the timeout — guarded so that only the first
trigger runs it; a later trigger returns with no further effect. -/
def Coordinator.triggerShutdown (c : Coordinator) : Coordinator :=
  if c.shutdownDone then c
  else
    let snap := c.store.SaveSnapshot c.fs allOk
    { schedulerRunning := false, shutdownDone := true,
      forcedSnapshots := c.forcedSnapshots + 1, acceptingConns := false,
      drainTimeout := c.drainTimeout,
      log := c.log ++ [.stopScheduler, .forceSnapshot, .drainConnections],
      store := snap.2.1, fs := snap.2.2 }

-- ## Concrete example values used in witnesses and counterexamples
/-- The spec's example record. -/
def exBookmark : Bookmark :=
  { url := "https://example.com", name := "Example", description := "", tags := [] }

/-- A second record, distinct from `exBookmark`. -/
def otherBookmark : Bookmark :=
  { url := "https://other.example", name := "Other", description := "", tags := [] }

/-- A store state whose collection holds a key above its counter — producible
by `NewStore` from a hand-written backing file, as the accompanying theorem
shows. -/
def collidingStore : Store := { bookmarks := [(1, exBookmark)], idxCounter := 0 }

/-- A one-record store used as pre-snapshot content in the C3 analysis. -/
def preSnapStore : Store := { bookmarks := [(1, exBookmark)], idxCounter := 1 }

/-- A backing filesystem already holding the pre-snapshot document. -/
def preSnapFs : FileSys :=
  { backing := some (some (encodeStore preSnapStore)), temp := none }

-- ## C7: aliasing analysis of `List`
/-- A record value whose tags slice points at heap array `0`. -/
def exGoBookmark : GoBookmark :=
  { url := "https://example.com", name := "Example", description := "",
    tagsRef := 0 }

/-- A heap with one map cell (the store's) and one tags backing array. -/
def cHeap : GoHeap := { mapCells := [[(1, exGoBookmark)]], arrays := [["go"]] }

/-- The store owning map cell `0`. -/
def cGoStore : GoStore := { bookmarksRef := 0, idxCounter := 1 }

-- ## Theorems

-- Basic lemmas about the canonical association list.
theorem lookupKey_eraseKey_self (id : Int) (l : List (Int × Bookmark)) :
    lookupKey id (eraseKey id l) = none := by
  induction l with
  | nil => rfl
  | cons hd tl ih =>
    rw [eraseKey, List.filter_cons]
    by_cases h : hd.1 = id
    · rw [if_neg (by simp [h])]
      exact ih
    · rw [if_pos (by simp [h]), lookupKey, if_neg h]
      exact ih

theorem lookupKey_eraseKey_other (id k : Int) (hk : k ≠ id) (l : List (Int × Bookmark)) :
    lookupKey k (eraseKey id l) = lookupKey k l := by
  induction l with
  | nil => rfl
  | cons hd tl ih =>
    rw [eraseKey, List.filter_cons]
    by_cases h : hd.1 = id
    · have hne : hd.1 ≠ k := by rw [h]; exact fun hh => hk hh.symm
      rw [if_neg (by simp [h]), lookupKey, if_neg hne]
      exact ih
    · rw [if_pos (by simp [h]), lookupKey, lookupKey]
      by_cases h2 : hd.1 = k
      · rw [if_pos h2, if_pos h2]
      · rw [if_neg h2, if_neg h2]
        exact ih

theorem lookupKey_insertKey_self (id : Int) (b : Bookmark) (l : List (Int × Bookmark)) :
    lookupKey id (insertKey id b l) = some b := by
  induction l with
  | nil => simp [insertKey, lookupKey]
  | cons hd tl ih =>
    rw [insertKey]
    by_cases h1 : id < hd.1
    · rw [if_pos h1, lookupKey, if_pos rfl]
    · rw [if_neg h1]
      by_cases h2 : id = hd.1
      · rw [if_pos h2, lookupKey, if_pos rfl]
      · rw [if_neg h2, lookupKey, if_neg (fun hh => h2 hh.symm)]
        exact ih

theorem mem_insertKey (id : Int) (b : Bookmark) (l : List (Int × Bookmark))
    (kv : Int × Bookmark) (h : kv ∈ insertKey id b l) : kv = (id, b) ∨ kv ∈ l := by
  induction l with
  | nil =>
    simp [insertKey] at h
    exact Or.inl h
  | cons hd tl ih =>
    rw [insertKey] at h
    by_cases h1 : id < hd.1
    · rw [if_pos h1, List.mem_cons] at h
      rcases h with h | h
      · exact Or.inl h
      · exact Or.inr h
    · rw [if_neg h1] at h
      by_cases h2 : id = hd.1
      · rw [if_pos h2, List.mem_cons] at h
        rcases h with h | h
        · exact Or.inl h
        · exact Or.inr (List.mem_cons_of_mem hd h)
      · rw [if_neg h2, List.mem_cons] at h
        rcases h with h | h
        · exact Or.inr (h ▸ List.mem_cons_self hd tl)
        · rcases ih h with h3 | h3
          · exact Or.inl h3
          · exact Or.inr (List.mem_cons_of_mem hd h3)

theorem mem_eraseKey (id : Int) (l : List (Int × Bookmark)) (kv : Int × Bookmark)
    (h : kv ∈ eraseKey id l) : kv ∈ l :=
  List.mem_of_mem_filter h

theorem canonical_insertKey (id : Int) (b : Bookmark) (l : List (Int × Bookmark))
    (hc : Canonical l) : Canonical (insertKey id b l) := by
  induction l with
  | nil =>
    simp [insertKey, Canonical]
  | cons hd tl ih =>
    rw [Canonical, List.pairwise_cons] at hc
    rw [insertKey]
    by_cases h1 : id < hd.1
    · rw [if_pos h1]
      refine List.Pairwise.cons ?_ (List.Pairwise.cons hc.1 hc.2)
      intro kv hkv
      rw [List.mem_cons] at hkv
      rcases hkv with h | h
      · rw [h]; exact h1
      · exact lt_trans h1 (hc.1 kv h)
    · rw [if_neg h1]
      by_cases h2 : id = hd.1
      · rw [if_pos h2]
        exact List.Pairwise.cons (fun kv hkv => h2 ▸ hc.1 kv hkv) hc.2
      · rw [if_neg h2]
        have hgt : hd.1 < id := lt_of_le_of_ne (not_lt.mp h1) (fun h => h2 h.symm)
        refine List.Pairwise.cons ?_ (ih hc.2)
        intro kv hkv
        rcases mem_insertKey id b tl kv hkv with h | h
        · rw [h]; exact hgt
        · exact hc.1 kv h

theorem canonical_eraseKey (id : Int) (l : List (Int × Bookmark))
    (hc : Canonical l) : Canonical (eraseKey id l) :=
  List.Pairwise.filter _ hc

theorem storeInv_empty : StoreInv emptyStore := by
  constructor
  · simp [emptyStore, Canonical]
  · intro kv hkv
    simp [emptyStore] at hkv

theorem storeInv_add (s : Store) (b : Bookmark) (h : StoreInv s) :
    StoreInv (s.Add b).2 := by
  constructor
  · exact canonical_insertKey _ _ _ h.1
  · intro kv hkv
    simp only [Store.Add] at hkv ⊢
    rcases mem_insertKey _ _ _ kv hkv with h1 | h1
    · rw [h1]
    · exact le_trans (h.2 kv h1) (by omega)

theorem lookupKey_mem (id : Int) (b : Bookmark) (l : List (Int × Bookmark))
    (hl : lookupKey id l = some b) : (id, b) ∈ l := by
  induction l with
  | nil => simp [lookupKey] at hl
  | cons hd tl ih =>
    rw [lookupKey] at hl
    by_cases hh : hd.1 = id
    · rw [if_pos hh] at hl
      have hb : hd.2 = b := by
        cases hl
        rfl
      have : hd = (id, b) := by
        rw [← hh, ← hb]
      rw [← this]
      exact List.mem_cons_self hd tl
    · rw [if_neg hh] at hl
      exact List.mem_cons_of_mem hd (ih hl)

theorem storeInv_update (s : Store) (id : Int) (b : Bookmark) (h : StoreInv s) :
    StoreInv (s.Update id b).2 := by
  rw [Store.Update]
  cases hl : lookupKey id s.bookmarks with
  | none => exact h
  | some b0 =>
    have hid : (id, b0) ∈ s.bookmarks := lookupKey_mem id b0 s.bookmarks hl
    constructor
    · exact canonical_insertKey _ _ _ h.1
    · intro kv hkv
      simp only at hkv ⊢
      rcases mem_insertKey _ _ _ kv hkv with h1 | h1
      · rw [h1]
        exact h.2 (id, b0) hid
      · exact h.2 kv h1

theorem storeInv_delete (s : Store) (id : Int) (h : StoreInv s) :
    StoreInv (s.Delete id).2 := by
  rw [Store.Delete]
  cases hl : lookupKey id s.bookmarks with
  | none => exact h
  | some b0 =>
    exact ⟨canonical_eraseKey _ _ h.1, fun kv hkv => h.2 kv (mem_eraseKey _ _ _ hkv)⟩

theorem lookupKey_insertKey_other (id k : Int) (hk : k ≠ id) (b : Bookmark)
    (l : List (Int × Bookmark)) :
    lookupKey k (insertKey id b l) = lookupKey k l := by
  have hik : id ≠ k := fun h => hk h.symm
  induction l with
  | nil =>
    simp only [insertKey, lookupKey]
    exact if_neg hik
  | cons hd tl ih =>
    rw [insertKey]
    by_cases h1 : id < hd.1
    · rw [if_pos h1, lookupKey, if_neg hik]
    · rw [if_neg h1]
      by_cases h2 : id = hd.1
      · rw [if_pos h2, lookupKey, if_neg hik, lookupKey, ← h2, if_neg hik]
      · rw [if_neg h2, lookupKey, lookupKey]
        by_cases h3 : hd.1 = k
        · rw [if_pos h3, if_pos h3]
        · rw [if_neg h3, if_neg h3]
          exact ih

theorem ofDigits_append_digit (l : List Nat) (d : Nat) :
    ofDigits (l ++ [d]) = ofDigits l * 10 + d := by
  simp [ofDigits, List.foldl_append]

theorem ofDigits_natDigits (n : Nat) : ofDigits (natDigits n) = n := by
  induction n using Nat.strong_induction_on with
  | _ n ih =>
    rw [natDigits]
    by_cases h : n < 10
    · rw [dif_pos h]
      simp [ofDigits]
    · rw [dif_neg h, ofDigits_append_digit, ih (n / 10) (Nat.div_lt_self (by omega) (by omega))]
      omega

theorem natDigits_lt_ten (n : Nat) : ∀ d ∈ natDigits n, d < 10 := by
  induction n using Nat.strong_induction_on with
  | _ n ih =>
    rw [natDigits]
    by_cases h : n < 10
    · rw [dif_pos h]
      intro d hd
      simp at hd
      omega
    · rw [dif_neg h]
      intro d hd
      rw [List.mem_append] at hd
      rcases hd with hd | hd
      · exact ih (n / 10) (Nat.div_lt_self (by omega) (by omega)) d hd
      · simp at hd
        omega

theorem natDigits_ne_nil (n : Nat) : natDigits n ≠ [] := by
  rw [natDigits]
  by_cases h : n < 10
  · rw [dif_pos h]
    simp
  · rw [dif_neg h]
    simp

theorem charDigit_digitChar (d : Nat) (h : d < 10) : charDigit (digitChar d) = some d := by
  interval_cases d <;> decide

theorem digitChar_ne_minus (d : Nat) (h : d < 10) : digitChar d ≠ '-' := by
  interval_cases d <;> decide

theorem mapOption_charDigit_map (l : List Nat) (h : ∀ d ∈ l, d < 10) :
    mapOption charDigit (l.map digitChar) = some l := by
  induction l with
  | nil => rfl
  | cons d tl ih =>
    have hd : d < 10 := h d (List.mem_cons_self d tl)
    have htl : ∀ x ∈ tl, x < 10 := fun x hx => h x (List.mem_cons_of_mem d hx)
    rw [List.map_cons, mapOption, charDigit_digitChar d hd, ih htl]

theorem parseNatChars_natDigits (n : Nat) :
    parseNatChars ((natDigits n).map digitChar) = some n := by
  have hne : natDigits n ≠ [] := natDigits_ne_nil n
  rw [parseNatChars.eq_def]
  cases hl : (natDigits n).map digitChar with
  | nil =>
    rw [List.map_eq_nil_iff] at hl
    exact absurd hl hne
  | cons c cs =>
    rw [← hl, mapOption_charDigit_map _ (natDigits_lt_ten n)]
    simp only [Option.map, ofDigits_natDigits]
    rw [hl]

theorem parseKey_encodeKey (n : Int) : parseKey (encodeKey n) = some n := by
  rw [parseKey, encodeKey]
  show parseIntChars (intChars n) = some n
  rw [intChars]
  by_cases h : n < 0
  · rw [if_pos h, parseIntChars, if_pos rfl, parseNatChars_natDigits]
    have hn : ((-n).toNat : Int) = -n := Int.toNat_of_nonneg (by omega)
    simp [hn]
  · rw [if_neg h]
    cases hl : (natDigits n.toNat).map digitChar with
    | nil =>
      rw [List.map_eq_nil_iff] at hl
      exact absurd hl (natDigits_ne_nil _)
    | cons c cs =>
      have hc : c ≠ '-' := by
        have : c ∈ (natDigits n.toNat).map digitChar := by
          rw [hl]
          exact List.mem_cons_self c cs
        rw [List.mem_map] at this
        obtain ⟨d, hd, hcd⟩ := this
        rw [← hcd]
        exact digitChar_ne_minus d (natDigits_lt_ten _ d hd)
      rw [parseIntChars, if_neg hc, ← hl, parseNatChars_natDigits]
      have hn : (n.toNat : Int) = n := Int.toNat_of_nonneg (by omega)
      simp [hn]

theorem decodeBookmark_encodeBookmark (b : Bookmark) :
    decodeBookmark (encodeBookmark b) = some b := by
  have htags : mapOption (fun j => match j with | Json.str s => some s | _ => none)
      (b.tags.map Json.str) = some b.tags := by
    induction b.tags with
    | nil => rfl
    | cons hd tl ih => rw [List.map_cons, mapOption, ih]
  simp [encodeBookmark, decodeBookmark, getField, fieldAsString, fieldAsStringList, htags]

theorem insertKey_append_last (k : Int) (v : Bookmark) (acc : List (Int × Bookmark))
    (h : ∀ kv ∈ acc, kv.1 < k) : insertKey k v acc = acc ++ [(k, v)] := by
  induction acc with
  | nil => rfl
  | cons hd tl ih =>
    have hhd : hd.1 < k := h hd (List.mem_cons_self hd tl)
    rw [insertKey, if_neg (by omega), if_neg (by omega), List.cons_append,
      ih (fun kv hkv => h kv (List.mem_cons_of_mem hd hkv))]

theorem foldl_insertKey_sorted (l acc : List (Int × Bookmark))
    (h : Canonical (acc ++ l)) :
    l.foldl (fun acc kv => insertKey kv.1 kv.2 acc) acc = acc ++ l := by
  induction l generalizing acc with
  | nil => simp
  | cons hd tl ih =>
    rw [List.foldl_cons]
    have hlt : ∀ kv ∈ acc, kv.1 < hd.1 := by
      intro kv hkv
      rw [Canonical] at h
      have := (List.pairwise_append.mp h).2.2 kv hkv hd (List.mem_cons_self hd tl)
      exact this
    rw [insertKey_append_last hd.1 hd.2 acc hlt]
    have h2 : Canonical ((acc ++ [(hd.1, hd.2)]) ++ tl) := by
      have : (acc ++ [(hd.1, hd.2)]) ++ tl = acc ++ hd :: tl := by
        simp
      rw [this]
      exact h
    rw [ih (acc ++ [(hd.1, hd.2)]) h2]
    simp

theorem buildMap_canonical_id (l : List (Int × Bookmark)) (h : Canonical l) :
    buildMap l = l := by
  rw [buildMap, foldl_insertKey_sorted l [] (by simpa using h)]
  simp

theorem mapOption_decodeEntry_encodeEntries (l : List (Int × Bookmark)) :
    mapOption decodeEntry (encodeEntries l) = some l := by
  induction l with
  | nil => rfl
  | cons hd tl ih =>
    rw [encodeEntries, List.map_cons]
    rw [encodeEntries] at ih
    rw [mapOption, ih]
    have : decodeEntry (encodeKey hd.1, encodeBookmark hd.2) = some hd := by
      rw [decodeEntry]
      simp [parseKey_encodeKey, decodeBookmark_encodeBookmark]
    rw [this]

/-- Unmarshalling a marshalled store always succeeds, restores the counter
verbatim, and restores the map up to re-insertion of its entries. -/
theorem decodeStore_encodeStore (s : Store) :
    decodeStore (encodeStore s) =
      some { bookmarks := buildMap s.bookmarks, idxCounter := s.idxCounter } := by
  simp [decodeStore, encodeStore, getField, decodeEntries, bookmarksField,
    counterField, mapOption_decodeEntry_encodeEntries]

theorem decodeStore_encodeStore_canonical (s : Store) (h : Canonical s.bookmarks) :
    decodeStore (encodeStore s) = some s := by
  rw [decodeStore_encodeStore, buildMap_canonical_id s.bookmarks h]

theorem NewStore_encodeStore (s : Store) (h : Canonical s.bookmarks) :
    NewStore (some (some (encodeStore s))) = .ok s := by
  rw [NewStore, decodeStore_encodeStore_canonical s h]

/-- The successful run ends in the last state of the protocol trace. -/
theorem saveSnapshot_allOk (s : Store) (fs : FileSys) :
    s.SaveSnapshot fs allOk =
      (.ok (), s, { backing := some (some (encodeStore s)), temp := none }) := by
  rw [Store.SaveSnapshot]
  by_cases h : fs.backing.isSome
  · simp [allOk, h]
  · simp [allOk, h]

theorem canonical_buildMap (l : List (Int × Bookmark)) : Canonical (buildMap l) := by
  rw [buildMap]
  have : ∀ acc : List (Int × Bookmark), Canonical acc →
      Canonical (l.foldl (fun acc kv => insertKey kv.1 kv.2 acc) acc) := by
    induction l with
    | nil => intro acc hacc; exact hacc
    | cons hd tl ih =>
      intro acc hacc
      rw [List.foldl_cons]
      exact ih _ (canonical_insertKey hd.1 hd.2 acc hacc)
  exact this [] (by simp [Canonical])

theorem canonical_bookmarksField (fields : List (String × Json))
    (bm : List (Int × Bookmark)) (h : bookmarksField fields = some bm) :
    Canonical bm := by
  rw [bookmarksField] at h
  cases hg : getField "bookmarks" fields with
  | none =>
    rw [hg] at h
    simp at h
    rw [h]
    simp [Canonical]
  | some jv =>
    rw [hg] at h
    cases jv with
    | obj efs =>
      simp [decodeEntries] at h
      obtain ⟨entries, _, hbm⟩ := h
      rw [← hbm]
      exact canonical_buildMap entries
    | str sv => simp at h
    | num nv => simp at h
    | arr xs => simp at h

theorem canonical_decodeStore (j : Json) (s : Store) (h : decodeStore j = some s) :
    Canonical s.bookmarks := by
  cases j with
  | obj fields =>
    rw [decodeStore] at h
    cases hb : bookmarksField fields with
    | none => rw [hb] at h; simp at h
    | some bm =>
      rw [hb] at h
      cases hc : counterField fields with
      | none => rw [hc] at h; simp at h
      | some cnt =>
        rw [hc] at h
        simp at h
        rw [← h]
        exact canonical_bookmarksField fields bm hb
  | str sv => simp [decodeStore] at h
  | num nv => simp [decodeStore] at h
  | arr xs => simp [decodeStore] at h

theorem canonical_newStore (file : FileContent) (s : Store)
    (h : NewStore file = .ok s) : Canonical s.bookmarks := by
  match file with
  | none =>
    rw [NewStore] at h
    simp at h
    rw [← h]
    simp [emptyStore, Canonical]
  | some none =>
    rw [NewStore] at h
    simp at h
    rw [← h]
    simp [emptyStore, Canonical]
  | some (some j) =>
    rw [NewStore] at h
    cases hd : decodeStore j with
    | none => rw [hd] at h; simp at h
    | some s0 =>
      rw [hd] at h
      simp at h
      rw [← h]
      exact canonical_decodeStore j s0 hd

theorem canonical_built (s : Store) (h : Built s) : Canonical s.bookmarks := by
  induction h with
  | loaded file s hload => exact canonical_newStore file s hload
  | add s b _ ih => exact canonical_insertKey _ _ _ ih
  | update s id b _ ih =>
    rw [Store.Update]
    cases hl : lookupKey id s.bookmarks with
    | none => exact ih
    | some b0 => exact canonical_insertKey _ _ _ ih
  | delete s id _ ih =>
    rw [Store.Delete]
    cases hl : lookupKey id s.bookmarks with
    | none => exact ih
    | some b0 => exact canonical_eraseKey _ _ ih

theorem storeInv_reachable (s : Store) (h : Reachable s) : StoreInv s := by
  induction h with
  | init => exact storeInv_empty
  | add s b _ ih => exact storeInv_add s b ih
  | update s id b _ ih => exact storeInv_update s id b ih
  | delete s id _ ih => exact storeInv_delete s id ih
  | reload s s' _ hload ih =>
    have : NewStore (some (some (encodeStore s))) = .ok s :=
      NewStore_encodeStore s ih.1
    rw [this] at hload
    cases hload
    exact ih

theorem built_reachable (s : Store) (h : Reachable s) : Built s := by
  induction h with
  | init => exact Built.loaded none emptyStore rfl
  | add s b _ ih => exact Built.add s b ih
  | update s id b _ ih => exact Built.update s id b ih
  | delete s id _ ih => exact Built.delete s id ih
  | reload s s' _ hload ih => exact Built.loaded _ _ hload

theorem applyOp_counter_mono (s : Store) (op : Op) :
    s.idxCounter ≤ (applyOp s op).1.idxCounter := by
  cases op with
  | get id => exact le_refl _
  | listAll => exact le_refl _
  | add b => simp [applyOp, Store.Add]
  | update id b =>
    rw [applyOp, Store.Update]
    cases lookupKey id s.bookmarks <;> simp
  | delete id =>
    rw [applyOp]
    rw [Store.Delete]
    cases lookupKey id s.bookmarks <;> simp
  | snapshot => exact le_refl _

theorem runOps_counter_mono (s : Store) (ops : List Op) :
    s.idxCounter ≤ (runOps s ops).1.idxCounter := by
  induction ops generalizing s with
  | nil => exact le_refl _
  | cons op ops ih =>
    rw [runOps]
    exact le_trans (applyOp_counter_mono s op) (ih (applyOp s op).1)

theorem applyOp_inv (s : Store) (op : Op) (h : StoreInv s) :
    StoreInv (applyOp s op).1 := by
  cases op with
  | get id => exact h
  | listAll => exact h
  | add b => exact storeInv_add s b h
  | update id b => exact storeInv_update s id b h
  | delete id =>
    have hinv := storeInv_delete s id h
    rw [applyOp, Store.Delete]
    rw [Store.Delete] at hinv
    cases hl : lookupKey id s.bookmarks with
    | none =>
      rw [hl] at hinv
      simpa using hinv
    | some b0 =>
      rw [hl] at hinv
      simpa using hinv
  | snapshot => exact h

theorem runOps_inv (s : Store) (ops : List Op) (h : StoreInv s) :
    StoreInv (runOps s ops).1 := by
  induction ops generalizing s with
  | nil => exact h
  | cons op ops ih =>
    rw [runOps]
    exact ih (applyOp s op).1 (applyOp_inv s op h)

theorem consecFrom_succ (c : Int) (n : Nat) :
    consecFrom c (n + 1) = (c + 1) :: consecFrom (c + 1) n := by
  rw [consecFrom, consecFrom, List.range_succ_eq_map, List.map_cons, List.map_map]
  congr 1
  · simp
  · apply List.map_congr_left
    intro i _
    simp only [Function.comp, Int.ofNat_eq_coe]
    push_cast
    ring

theorem update_counter (s : Store) (id : Int) (b : Bookmark) :
    (s.Update id b).2.idxCounter = s.idxCounter := by
  rw [Store.Update]
  cases lookupKey id s.bookmarks <;> rfl

theorem delete_counter (s : Store) (id : Int) :
    (s.Delete id).2.idxCounter = s.idxCounter := by
  rw [Store.Delete]
  cases lookupKey id s.bookmarks <;> rfl

/-- The returned identifiers of the `Add` calls in any run are the consecutive
integers following the starting counter, and the final counter is the start
plus the number of `Add`s. -/
theorem runOps_addedIds (s : Store) (ops : List Op) :
    (runOps s ops).1.idxCounter = s.idxCounter + numAdds ops ∧
      addedIds (runOps s ops).2 = consecFrom s.idxCounter (numAdds ops) := by
  induction ops generalizing s with
  | nil =>
    refine ⟨by simp [runOps, numAdds], ?_⟩
    simp [runOps, numAdds, addedIds, consecFrom]
  | cons op ops ih =>
    rw [runOps]
    cases op with
    | add b =>
      have hc : (applyOp s (.add b)).1.idxCounter = s.idxCounter + 1 := by
        simp [applyOp, Store.Add]
      have hn : numAdds (Op.add b :: ops) = numAdds ops + 1 := by
        simp [numAdds, List.countP_cons]
      obtain ⟨ih1, ih2⟩ := ih (applyOp s (.add b)).1
      constructor
      · rw [ih1, hc, hn]
        push_cast
        ring
      · have hev : (applyOp s (.add b)).2 = some (.added (s.idxCounter + 1)) := by
          simp [applyOp, Store.Add]
        rw [hev]
        simp only [Option.toList_some, List.cons_append, List.nil_append]
        rw [addedIds, List.filterMap_cons]
        simp only []
        rw [hn, consecFrom_succ]
        rw [addedIds] at ih2
        rw [ih2, hc]
    | get id =>
      obtain ⟨ih1, ih2⟩ := ih s
      exact ⟨by simpa [numAdds, List.countP_cons] using ih1,
        by simpa [applyOp, numAdds, List.countP_cons] using ih2⟩
    | listAll =>
      obtain ⟨ih1, ih2⟩ := ih s
      exact ⟨by simpa [numAdds, List.countP_cons] using ih1,
        by simpa [applyOp, numAdds, List.countP_cons] using ih2⟩
    | snapshot =>
      obtain ⟨ih1, ih2⟩ := ih s
      exact ⟨by simpa [numAdds, List.countP_cons] using ih1,
        by simpa [applyOp, numAdds, List.countP_cons] using ih2⟩
    | update id b =>
      obtain ⟨ih1, ih2⟩ := ih (applyOp s (.update id b)).1
      have hc : (applyOp s (.update id b)).1.idxCounter = s.idxCounter := by
        simp [applyOp, update_counter]
      constructor
      · rw [ih1, hc]
        simp [numAdds, List.countP_cons]
      · have hev : (applyOp s (.update id b)).2 = none := by
          simp [applyOp]
        rw [hev]
        simp only [Option.toList_none, List.nil_append]
        rw [ih2, hc]
        simp [numAdds, List.countP_cons]
    | delete id =>
      obtain ⟨ih1, ih2⟩ := ih (applyOp s (.delete id)).1
      have hc : (applyOp s (.delete id)).1.idxCounter = s.idxCounter := by
        rw [applyOp]
        cases hd : s.Delete id with
        | mk e s' =>
          have := delete_counter s id
          rw [hd] at this
          cases e <;> simpa using this
      have heva : addedIds ((applyOp s (.delete id)).2.toList ++ (runOps (applyOp s (.delete id)).1 ops).2)
          = addedIds (runOps (applyOp s (.delete id)).1 ops).2 := by
        rw [applyOp]
        cases hd : s.Delete id with
        | mk e s' =>
          cases e with
          | ok u => simp [addedIds, List.filterMap_cons]
          | error msg => simp [addedIds]
      constructor
      · rw [ih1, hc]
        simp [numAdds, List.countP_cons]
      · rw [heva, ih2, hc]
        simp [numAdds, List.countP_cons]

/-- A successful `Delete` certifies its identifier was in the collection, so
under the key-bound invariant every deleted identifier is at most the run's
final counter. -/
theorem deleted_le_counter (s : Store) (ops : List Op) (id : Int) (hinv : StoreInv s)
    (h : Event.deleted id ∈ (runOps s ops).2) :
    id ≤ (runOps s ops).1.idxCounter := by
  induction ops generalizing s with
  | nil => simp [runOps] at h
  | cons op ops ih =>
    rw [runOps] at h ⊢
    rw [List.mem_append] at h
    rcases h with h | h
    · cases op with
      | get i => simp [applyOp] at h
      | listAll => simp [applyOp] at h
      | snapshot => simp [applyOp] at h
      | add b => simp [applyOp] at h
      | update i b => simp [applyOp] at h
      | delete i =>
        rw [applyOp] at h
        rcases hl : lookupKey i s.bookmarks with _ | b0
        · rw [Store.Delete] at h
          rw [hl] at h
          simp at h
        · rw [Store.Delete] at h
          rw [hl] at h
          simp at h
          rw [← h] at hl
          have hmem := lookupKey_mem id b0 s.bookmarks hl
          have hle : id ≤ s.idxCounter := hinv.2 (id, b0) hmem
          show id ≤ (runOps (applyOp s (Op.delete i)).1 ops).1.idxCounter
          calc id ≤ s.idxCounter := hle
            _ ≤ (applyOp s (Op.delete i)).1.idxCounter := applyOp_counter_mono s _
            _ ≤ (runOps (applyOp s (Op.delete i)).1 ops).1.idxCounter :=
                runOps_counter_mono _ ops
    · show id ≤ (runOps (applyOp s op).1 ops).1.idxCounter
      exact ih (applyOp s op).1 (applyOp_inv s op hinv) h

/-- Every identifier an `Add` returns during a run strictly exceeds the
counter the run started from. -/
theorem added_gt_counter (s : Store) (ops : List Op) (id : Int)
    (h : Event.added id ∈ (runOps s ops).2) :
    s.idxCounter < id := by
  induction ops generalizing s with
  | nil => simp [runOps] at h
  | cons op ops ih =>
    rw [runOps] at h
    rw [List.mem_append] at h
    rcases h with h | h
    · cases op with
      | get i => simp [applyOp] at h
      | listAll => simp [applyOp] at h
      | snapshot => simp [applyOp] at h
      | update i b => simp [applyOp] at h
      | add b =>
        simp [applyOp] at h
        rw [h, Store.Add]
        simp
      | delete i =>
        rw [applyOp] at h
        rcases hl : lookupKey i s.bookmarks with _ | b0
        · rw [Store.Delete, hl] at h
          simp at h
        · rw [Store.Delete, hl] at h
          simp at h
    · have := ih (applyOp s op).1 h
      exact lt_of_le_of_lt (applyOp_counter_mono s op) this

-- ## Shared helper lemmas
theorem saveSnapshot_store_unchanged (s : Store) (fs : FileSys) (f : FsFail) :
    (s.SaveSnapshot fs f).2.1 = s := by
  rcases f with ⟨m, c, w, cl, rm, rn⟩
  rcases fs with ⟨b, t⟩
  cases b <;> cases m <;> cases c <;> cases w <;> cases cl <;> cases rm <;> cases rn <;>
    simp [Store.SaveSnapshot]

theorem saveSnapshot_ok_iff (s : Store) (fs : FileSys) (f : FsFail) :
    (s.SaveSnapshot fs f).1 = .ok () ↔
      (f.marshalOk ∧ f.createOk ∧ f.writeOk ∧ f.closeOk ∧
        (fs.backing.isSome → f.removeOk) ∧ f.renameOk) := by
  rcases f with ⟨m, c, w, cl, rm, rn⟩
  rcases fs with ⟨b, t⟩
  cases b <;> cases m <;> cases c <;> cases w <;> cases cl <;> cases rm <;> cases rn <;>
    simp [Store.SaveSnapshot]

theorem get_error_iff (s : Store) (id : Int) :
    s.Get id = .error "bookmark not found" ↔ lookupKey id s.bookmarks = none := by
  rw [Store.Get]
  cases lookupKey id s.bookmarks <;> simp

theorem update_error_iff (s : Store) (id : Int) (b : Bookmark) :
    (s.Update id b).1 = .error "bookmark not found" ↔
      lookupKey id s.bookmarks = none := by
  rw [Store.Update]
  cases lookupKey id s.bookmarks <;> simp

theorem delete_error_iff (s : Store) (id : Int) :
    (s.Delete id).1 = .error "bookmark not found" ↔
      lookupKey id s.bookmarks = none := by
  rw [Store.Delete]
  cases lookupKey id s.bookmarks <;> simp

theorem get_after_delete (s : Store) (id : Int) :
    ((s.Delete id).2).Get id = .error "bookmark not found" := by
  rw [Store.Delete]
  cases hl : lookupKey id s.bookmarks with
  | none => simp [Store.Get, hl]
  | some b0 => simp [Store.Get, lookupKey_eraseKey_self]

theorem update_missing_unchanged (s : Store) (id : Int) (b : Bookmark)
    (h : lookupKey id s.bookmarks = none) :
    (s.Update id b).1 = .error "bookmark not found" ∧ (s.Update id b).2 = s := by
  rw [Store.Update, h]
  exact ⟨rfl, rfl⟩

-- ## Claim theorems
/-- C8: `SaveSnapshot` succeeds exactly when every filesystem step it reaches
succeeds (temp-file creation, write, close, the remove performed when the
target exists, rename — plus the marshal step preceding them), i.e. it fails
with the persistence error of the first failing step; and whether it fails or
succeeds, the in-memory collection and counter are exactly as before the
call. -/
theorem snapshot_failure_leaves_state :
    ∀ (s : Store) (fs : FileSys) (f : FsFail),
      ((s.SaveSnapshot fs f).1 = .ok () ↔
        (f.marshalOk ∧ f.createOk ∧ f.writeOk ∧ f.closeOk ∧
          (fs.backing.isSome → f.removeOk) ∧ f.renameOk)) ∧
      (s.SaveSnapshot fs f).2.1 = s :=
  fun s fs f => ⟨saveSnapshot_ok_iff s fs f, saveSnapshot_store_unchanged s fs f⟩

/-- C9: `Get`, `Update` and `Delete` fail with the not-found error exactly
when the identifier is absent from the collection; `Delete` followed by `Get`
of the same identifier always fails with not-found; and an `Update` of an
absent identifier fails and leaves the store (collection and counter)
unchanged. -/
theorem notFound_exactly_when_absent :
    (∀ (s : Store) (id : Int),
       (s.Get id = .error "bookmark not found" ↔ lookupKey id s.bookmarks = none)) ∧
    (∀ (s : Store) (id : Int) (b : Bookmark),
       ((s.Update id b).1 = .error "bookmark not found" ↔
         lookupKey id s.bookmarks = none)) ∧
    (∀ (s : Store) (id : Int),
       ((s.Delete id).1 = .error "bookmark not found" ↔
         lookupKey id s.bookmarks = none)) ∧
    (∀ (s : Store) (id : Int),
       ((s.Delete id).2).Get id = .error "bookmark not found") ∧
    (∀ (s : Store) (id : Int) (b : Bookmark), lookupKey id s.bookmarks = none →
       (s.Update id b).1 = .error "bookmark not found" ∧ (s.Update id b).2 = s) :=
  ⟨get_error_iff, update_error_iff, delete_error_iff, get_after_delete,
   update_missing_unchanged⟩

/-- Witness for C9 at a concrete input: updating identifier `1` of the empty
store fails with not-found and leaves the store unchanged. -/
theorem notFound_exactly_when_absent_witness :
    (emptyStore.Update 1 exBookmark).1 = .error "bookmark not found" ∧
      (emptyStore.Update 1 exBookmark).2 = emptyStore :=
  notFound_exactly_when_absent.2.2.2.2 emptyStore 1 exBookmark (by rfl)

/-- C6: in every reachable store state each identifier in the collection is at
most `IdxCounter`; the counter never decreases under any operation
(get/list/add/update/delete and the snapshot write, which does not touch the
in-memory state); and reloading a store's own snapshot restores the counter
verbatim. -/
theorem counter_dominates_keys :
    (∀ s : Store, Reachable s → ∀ kv ∈ s.bookmarks, kv.1 ≤ s.idxCounter) ∧
    (∀ (s : Store) (op : Op), s.idxCounter ≤ (applyOp s op).1.idxCounter) ∧
    (∀ (s : Store) (fs : FileSys) (f : FsFail),
       (s.SaveSnapshot fs f).2.1.idxCounter = s.idxCounter) ∧
    (∀ (s s' : Store), NewStore (some (some (encodeStore s))) = .ok s' →
       s'.idxCounter = s.idxCounter) := by
  refine ⟨?_, applyOp_counter_mono, ?_, ?_⟩
  · intro s hs kv hkv
    exact (storeInv_reachable s hs).2 kv hkv
  · intro s fs f
    rw [saveSnapshot_store_unchanged]
  · intro s s' h
    rw [NewStore, decodeStore_encodeStore] at h
    simp at h
    rw [← h]

/-- Witness for C6 at a concrete input: after one `Add` on the fresh store the
inserted key `1` is bounded by the counter. -/
theorem counter_dominates_keys_witness :
    (1 : Int) ≤ (emptyStore.Add exBookmark).2.idxCounter :=
  counter_dominates_keys.1 (emptyStore.Add exBookmark).2
    (Reachable.add emptyStore exBookmark Reachable.init)
    (1, exBookmark) (by decide)

/-- C1: every `Add` returns `IdxCounter + 1`; across any operation sequence
the identifiers returned by the `Add` calls are the consecutive integers
following the starting counter (strictly increasing by 1, hence never
repeating); and from any reachable state, an identifier removed by a
successful `Delete` is never returned by a later `Add`. -/
theorem add_allocates_monotonically :
    (∀ (s : Store) (b : Bookmark), (s.Add b).1 = s.idxCounter + 1) ∧
    (∀ (s : Store) (ops : List Op),
       addedIds (runOps s ops).2 = consecFrom s.idxCounter (numAdds ops)) ∧
    (∀ s0 : Store, Reachable s0 → ∀ (ops1 ops2 : List Op) (id : Int),
       Event.deleted id ∈ (runOps s0 ops1).2 →
       Event.added id ∉ (runOps (runOps s0 ops1).1 ops2).2) := by
  refine ⟨fun s b => rfl, fun s ops => (runOps_addedIds s ops).2, ?_⟩
  intro s0 h0 ops1 ops2 id hdel hadd
  have h1 : id ≤ (runOps s0 ops1).1.idxCounter :=
    deleted_le_counter s0 ops1 id (storeInv_reachable s0 h0) hdel
  have h2 : (runOps s0 ops1).1.idxCounter < id :=
    added_gt_counter (runOps s0 ops1).1 ops2 id hadd
  omega

/-- Witness for C1 at a concrete input: add then delete identifier `1` on the
fresh store; a later `Add` does not return `1` again. -/
theorem add_allocates_monotonically_witness :
    Event.added 1 ∉
      (runOps (runOps emptyStore [Op.add exBookmark, Op.delete 1]).1
        [Op.add exBookmark]).2 :=
  add_allocates_monotonically.2.2 emptyStore Reachable.init
    [Op.add exBookmark, Op.delete 1] [Op.add exBookmark] 1 (by decide)

/-- C2: from any store built from a backing file and mutated through
add/update/delete, a successful `SaveSnapshot` followed by `NewStore` on the
resulting backing file reproduces the collection and the counter exactly; in
particular snapshotting the empty store writes a non-empty file that reloads
as the empty collection with counter `0`. -/
theorem snapshot_reload_roundtrip :
    (∀ (s : Store) (fs : FileSys), Built s →
       (s.SaveSnapshot fs allOk).1 = .ok () ∧
       NewStore ((s.SaveSnapshot fs allOk).2.2).backing = .ok s) ∧
    (∀ fs : FileSys,
       ((emptyStore.SaveSnapshot fs allOk).2.2).backing =
         some (some (encodeStore emptyStore)) ∧
       NewStore ((emptyStore.SaveSnapshot fs allOk).2.2).backing = .ok emptyStore) := by
  constructor
  · intro s fs hb
    rw [saveSnapshot_allOk]
    exact ⟨rfl, NewStore_encodeStore s (canonical_built s hb)⟩
  · intro fs
    rw [saveSnapshot_allOk]
    exact ⟨rfl, NewStore_encodeStore emptyStore (by simp [emptyStore, Canonical])⟩

/-- Witness for C2 at a concrete input: the one-record store built by an `Add`
on a fresh store snapshots and reloads to itself. -/
theorem snapshot_reload_roundtrip_witness :
    ((emptyStore.Add exBookmark).2.SaveSnapshot ⟨none, none⟩ allOk).1 = .ok () ∧
      NewStore (((emptyStore.Add exBookmark).2.SaveSnapshot
        ⟨none, none⟩ allOk).2.2).backing = .ok (emptyStore.Add exBookmark).2 :=
  snapshot_reload_roundtrip.1 (emptyStore.Add exBookmark).2 ⟨none, none⟩
    (Built.add emptyStore exBookmark (Built.loaded none emptyStore rfl))

/-- C3 counterexample: with a pre-snapshot document on disk, the snapshot
write sequence reaches a point — after the unconditional remove of the
target, before the rename — where the backing path holds no content at all:
neither the complete pre-snapshot content nor the complete new content, so
the claim as stated is false at this input. -/
theorem snapshot_remove_window_counterexample :
    (FileSys.mk none (some (some (encodeStore emptyStore))) ∈
        snapshotStates emptyStore preSnapFs) ∧
      ((none : FileContent) ≠ some (some (encodeStore preSnapStore))) ∧
      ((none : FileContent) ≠ some (some (encodeStore emptyStore))) ∧
      preSnapFs.backing = some (some (encodeStore preSnapStore)) := by
  refine ⟨?_, by simp, by simp, rfl⟩
  have h6 : snapshotStates emptyStore preSnapFs =
      [preSnapFs, { preSnapFs with temp := some none },
       { preSnapFs with temp := some (some (encodeStore emptyStore)) },
       { preSnapFs with temp := some (some (encodeStore emptyStore)) },
       ⟨none, some (some (encodeStore emptyStore))⟩,
       ⟨some (some (encodeStore emptyStore)), none⟩] := rfl
  rw [h6]
  exact List.mem_cons_of_mem _ (List.mem_cons_of_mem _ (List.mem_cons_of_mem _
    (List.mem_cons_of_mem _ (List.mem_cons_self _ _))))

/-- C3 amended: at every point of the snapshot write sequence the backing
path holds the complete pre-snapshot content, the complete new content, or —
when a target existed, in the window between the remove and the rename — no
file at all; truncated or partial content never appears.  The remove is
performed whenever the target exists, on every platform (the code has no
platform branch), and the sequence ends with the complete new content at the
backing path. -/
theorem snapshot_backing_integrity :
    (∀ (s : Store) (fs : FileSys), ∀ st ∈ snapshotStates s fs,
       st.backing = fs.backing ∨ st.backing = some (some (encodeStore s)) ∨
         (fs.backing.isSome = true ∧ st.backing = none)) ∧
    (∀ (s : Store) (fs : FileSys), fs.backing.isSome = true →
       FileSys.mk none (some (some (encodeStore s))) ∈ snapshotStates s fs) ∧
    (∀ (s : Store) (fs : FileSys),
       (snapshotStates s fs).getLast? =
         some (FileSys.mk (some (some (encodeStore s))) none)) := by
  refine ⟨?_, ?_, ?_⟩
  · intro s fs st hst
    rw [snapshotStates] at hst
    by_cases hb : fs.backing.isSome
    · simp only [hb, if_true] at hst
      simp at hst
      rcases hst with h | h | h | h | h <;> rw [h] <;> simp [hb]
    · simp only [hb, Bool.false_eq_true, if_false] at hst
      simp at hst
      rcases hst with h | h | h | h <;> rw [h] <;> simp
  · intro s fs hb
    rw [snapshotStates]
    simp only [hb, if_true]
    simp
  · intro s fs
    rw [snapshotStates]
    by_cases hb : fs.backing.isSome
    · simp [hb]
    · simp [hb]

/-- Witness for the amended C3 at a concrete input: the initial point of the
sequence on a filesystem with pre-snapshot content holds the pre-snapshot
content. -/
theorem snapshot_backing_integrity_witness :
    preSnapFs.backing = preSnapFs.backing ∨
      preSnapFs.backing = some (some (encodeStore emptyStore)) ∨
      (preSnapFs.backing.isSome = true ∧ preSnapFs.backing = none) :=
  snapshot_backing_integrity.1 emptyStore preSnapFs preSnapFs
    (by rw [snapshotStates]; simp [preSnapFs])

/-- C10 counterexample: in the store state with entry `1` and counter `0` —
producible by `NewStore` from a hand-written backing file, as the last
conjunct shows — an `Add` allocates identifier `1` and overwrites the
pre-existing entry at key `1`, so "add leaves every pre-existing entry
unchanged" is false for this store state. -/
theorem add_overwrites_counterexample :
    lookupKey 1 collidingStore.bookmarks = some exBookmark ∧
      (collidingStore.Add otherBookmark).1 = 1 ∧
      lookupKey 1 (collidingStore.Add otherBookmark).2.bookmarks =
        some otherBookmark ∧
      otherBookmark ≠ exBookmark ∧
      NewStore (some (some (encodeStore collidingStore))) = .ok collidingStore := by
  refine ⟨rfl, rfl, rfl, by decide, ?_⟩
  exact NewStore_encodeStore collidingStore (by simp [collidingStore, Canonical])

/-- C10 amended: a successful `Delete` removes exactly its own entry, leaving
the counter and every entry at another key unchanged; an `Add` writes only at
key `IdxCounter + 1`, so it leaves every entry at another key unchanged — in
particular it leaves every pre-existing entry unchanged in any state where
all keys are bounded by the counter (as in every reachable state), though not
in an arbitrary state. -/
theorem mutation_frame :
    (∀ (s : Store) (id : Int), (s.Delete id).1 = .ok () →
       (s.Delete id).2.idxCounter = s.idxCounter ∧
         lookupKey id (s.Delete id).2.bookmarks = none ∧
         ∀ k : Int, k ≠ id →
           lookupKey k (s.Delete id).2.bookmarks = lookupKey k s.bookmarks) ∧
    (∀ (s : Store) (b : Bookmark) (k : Int), k ≠ s.idxCounter + 1 →
       lookupKey k (s.Add b).2.bookmarks = lookupKey k s.bookmarks) ∧
    (∀ (s : Store) (b : Bookmark), (∀ kv ∈ s.bookmarks, kv.1 ≤ s.idxCounter) →
       ∀ (k : Int) (v : Bookmark), lookupKey k s.bookmarks = some v →
         lookupKey k (s.Add b).2.bookmarks = some v) := by
  refine ⟨?_, ?_, ?_⟩
  · intro s id hok
    refine ⟨delete_counter s id, ?_, ?_⟩
    · rw [Store.Delete] at hok ⊢
      cases hl : lookupKey id s.bookmarks with
      | none => simp [hl] at hok
      | some b0 =>
        simpa using lookupKey_eraseKey_self id s.bookmarks
    · intro k hk
      rw [Store.Delete] at hok ⊢
      cases hl : lookupKey id s.bookmarks with
      | none => simp [hl] at hok
      | some b0 =>
        simpa using lookupKey_eraseKey_other id k hk s.bookmarks
  · intro s b k hk
    rw [Store.Add]
    simpa using lookupKey_insertKey_other (s.idxCounter + 1) k hk b s.bookmarks
  · intro s b hbound k v hkv
    have hkle : k ≤ s.idxCounter := hbound (k, v) (lookupKey_mem k v s.bookmarks hkv)
    have hk : k ≠ s.idxCounter + 1 := by omega
    rw [Store.Add]
    have := lookupKey_insertKey_other (s.idxCounter + 1) k hk b s.bookmarks
    simpa [this] using hkv

/-- Witness for the amended C10 at a concrete input: deleting entry `1` from
a two-entry reachable-shaped store keeps the entry at key `2`. -/
theorem mutation_frame_witness :
    lookupKey 2 ((Store.mk [(1, exBookmark), (2, otherBookmark)] 2).Delete 1).2.bookmarks =
      lookupKey 2 (Store.mk [(1, exBookmark), (2, otherBookmark)] 2).bookmarks :=
  (mutation_frame.1 (Store.mk [(1, exBookmark), (2, otherBookmark)] 2) 1
    (by rfl)).2.2 2 (by decide)

/-- C5 counterexample: a configuration with the non-positive snapshot
interval `"0s"` passes validation and server construction succeeds, and with
the positive interval `"5s"` the constructed snapshot loop still ticks at the
fixed 1000 ms period rather than the configured 5000 ms — so neither half of
the claim holds of the code. -/
theorem scheduler_interval_counterexample :
    (Config.Validate { DefaultConfig with snapshotInterval := "0s" } = .ok ()) ∧
      (serverNew none { DefaultConfig with snapshotInterval := "0s" } =
        .ok { store := emptyStore, tickerMillis := 1000 }) ∧
      (serverNew none { DefaultConfig with snapshotInterval := "5s" } =
        .ok { store := emptyStore, tickerMillis := 1000 }) ∧
      (1000 : Nat) ≠ 5000 := by
  refine ⟨?_, rfl, rfl, by decide⟩
  rw [Config.Validate]
  simp [DefaultConfig]

/-- C5 amended: validation never examines the snapshot interval (replacing it
by any string, positive or not, leaves the verdict unchanged), construction
therefore cannot fail on a non-positive interval, and every successfully
constructed server runs its snapshot loop at the fixed one-second (1000 ms)
period regardless of the configured interval. -/
theorem scheduler_fixed_period :
    (∀ (c : Config) (iv : String),
       Config.Validate { c with snapshotInterval := iv } = c.Validate) ∧
    (∀ (file : FileContent) (c : Config) (sv : SrvServer),
       serverNew file c = .ok sv → sv.tickerMillis = 1000) := by
  constructor
  · intro c iv
    rw [Config.Validate, Config.Validate]
  · intro file c sv h
    rw [serverNew] at h
    cases hn : NewStore file with
    | error e => rw [hn] at h; simp at h
    | ok st =>
      rw [hn] at h
      simp at h
      rw [← h]

/-- Witness for the amended C5 at a concrete input: the server built on an
absent backing file with the default configuration ticks at 1000 ms. -/
theorem scheduler_fixed_period_witness :
    ({ store := emptyStore, tickerMillis := 1000 } : SrvServer).tickerMillis = 1000 :=
  scheduler_fixed_period.2 none DefaultConfig
    { store := emptyStore, tickerMillis := 1000 } (by rfl)

/-- C4 (modelled from the spec, the coordinator implementation being absent
from the sources): triggering shutdown on a running coordinator stops the
scheduler, then forces exactly one snapshot (whose document reaches the
backing file), then stops accepting connections with the bounded drain
timeout, logging the three steps in that order; triggering shutdown again
re-runs nothing — the state after the second trigger is the state after the
first. -/
theorem shutdown_runs_once_in_order :
    ∀ (s : Store) (fs : FileSys),
      ((startCoordinator s fs).triggerShutdown.log =
        [ShutdownStep.stopScheduler, ShutdownStep.forceSnapshot,
         ShutdownStep.drainConnections]) ∧
      (startCoordinator s fs).triggerShutdown.forcedSnapshots = 1 ∧
      (startCoordinator s fs).triggerShutdown.schedulerRunning = false ∧
      (startCoordinator s fs).triggerShutdown.acceptingConns = false ∧
      (startCoordinator s fs).triggerShutdown.drainTimeout = 30 ∧
      (startCoordinator s fs).triggerShutdown.fs.backing =
        some (some (encodeStore s)) ∧
      (startCoordinator s fs).triggerShutdown.triggerShutdown =
        (startCoordinator s fs).triggerShutdown := by
  intro s fs
  have h1 : (startCoordinator s fs).triggerShutdown =
      { schedulerRunning := false, shutdownDone := true, forcedSnapshots := 1,
        acceptingConns := false, drainTimeout := 30,
        log := [ShutdownStep.stopScheduler, ShutdownStep.forceSnapshot,
                ShutdownStep.drainConnections],
        store := (s.SaveSnapshot fs allOk).2.1,
        fs := (s.SaveSnapshot fs allOk).2.2 } := by
    rw [Coordinator.triggerShutdown]
    simp [startCoordinator]
  refine ⟨?_, ?_, ?_, ?_, ?_, ?_, ?_⟩
  · rw [h1]
  · rw [h1]
  · rw [h1]
  · rw [h1]
  · rw [h1]
  · rw [h1]
    show ((s.SaveSnapshot fs allOk).2.2).backing = some (some (encodeStore s))
    rw [saveSnapshot_allOk]
  · rw [h1, Coordinator.triggerShutdown]
    simp

theorem getD_set_ne {α : Type} (l : List α) (i j : Nat) (a d : α) (h : i ≠ j) :
    (l.set i a).getD j d = l.getD j d := by
  rw [List.getD_eq_getElem?_getD, List.getD_eq_getElem?_getD, List.getElem?_set_ne h]

theorem getD_append_len {α : Type} (l : List α) (x d : α) :
    (l ++ [x]).getD l.length d = x := by
  rw [List.getD_append_right l [x] d l.length (le_refl _)]
  simp

/-- C7 counterexample: the map returned by `List` holds the record whose
`tagsRef` is the store's own tags backing array, and writing one tag element
through that returned record changes the store's logical state — `maps.Clone`
copies entries but shares the tag slices, so the claim as stated is false at
this input. -/
theorem list_alias_counterexample :
    ((1, exGoBookmark) ∈
        (goListAll cHeap cGoStore).1.mapCells.getD (goListAll cHeap cGoStore).2 []) ∧
      storeView (writeTagElem (goListAll cHeap cGoStore).1 exGoBookmark.tagsRef
          0 "changed") cGoStore ≠
        storeView (goListAll cHeap cGoStore).1 cGoStore := by
  refine ⟨by decide, by decide⟩

/-- C7 amended: `List` allocates a fresh map cell whose entries equal the
store's at call time; store mutations after the call (an `Add`) are not
observable through the returned map, and replacing the returned map's
contents wholesale (inserting/removing/replacing entries) never changes the
store's state — but the records' tag backing arrays are shared, so writing a
tag element through a returned record is visible in the store (the
counterexample above). -/
theorem list_copy_semantics :
    (∀ (h : GoHeap) (s : GoStore),
       mapView (goListAll h s).1 (goListAll h s).2 = storeView h s) ∧
    (∀ (h : GoHeap) (s : GoStore), s.bookmarksRef < h.mapCells.length →
       ∀ gb : GoBookmark,
         mapView (goAdd (goListAll h s).1 s gb).1 (goListAll h s).2 =
           mapView (goListAll h s).1 (goListAll h s).2) ∧
    (∀ (h : GoHeap) (s : GoStore), s.bookmarksRef < h.mapCells.length →
       ∀ cell : List (Int × GoBookmark),
         storeView (setMapCell (goListAll h s).1 (goListAll h s).2 cell) s =
           storeView (goListAll h s).1 s) := by
  refine ⟨?_, ?_, ?_⟩
  · intro h s
    rw [mapView, storeView, goListAll]
    simp only []
    rw [getD_append_len]
    simp [readBookmark]
  · intro h s hlt gb
    rw [mapView, mapView, goAdd, setMapCell, goListAll]
    simp only []
    rw [getD_set_ne _ _ _ _ _ (ne_of_lt hlt)]
    simp [readBookmark]
  · intro h s hlt cell
    rw [storeView, storeView, setMapCell, goListAll]
    simp only []
    rw [getD_set_ne _ _ _ _ _ (Ne.symm (ne_of_lt hlt)), List.getD_append _ _ _ _ hlt]
    simp [readBookmark]

/-- Witness for the amended C7 at a concrete input: an `Add` performed after
`List` is not observable through the returned map. -/
theorem list_copy_semantics_witness :
    mapView (goAdd (goListAll cHeap cGoStore).1 cGoStore exGoBookmark).1
        (goListAll cHeap cGoStore).2 =
      mapView (goListAll cHeap cGoStore).1 (goListAll cHeap cGoStore).2 :=
  list_copy_semantics.2.1 cHeap cGoStore (by decide) exGoBookmark
/-- Witness for C8 at a concrete input: a fully successful snapshot of the
fresh store on an empty filesystem leaves the in-memory store unchanged. -/
theorem snapshot_failure_leaves_state_witness :
    (emptyStore.SaveSnapshot ⟨none, none⟩ allOk).2.1 = emptyStore :=
  (snapshot_failure_leaves_state emptyStore ⟨none, none⟩ allOk).2

/-- Witness for C4 at a concrete input: shutting the coordinator of the fresh
store down forces exactly one snapshot. -/
theorem shutdown_runs_once_in_order_witness :
    (startCoordinator emptyStore ⟨none, none⟩).triggerShutdown.forcedSnapshots = 1 :=
  (shutdown_runs_once_in_order emptyStore ⟨none, none⟩).2.1
